import Mathlib

/-
  Verification of the quotation pagination planner and financial calculator
  (src/firebaseConfig.ts, QuotationPreview component; data model in src/types.ts).

  Modelling conventions:
  * JS strings are lists of characters; a nullable string is an `Option (List Char)`.
  * JS numbers in the financial calculator are modelled as rationals; `Math.round`
    is half-up rounding (ties toward positive infinity), which is its JS semantics.
  * Heights, line counts and list indices are natural numbers, as in the source
    all of them are non-negative integers.
-/

namespace Quotation

/-- A quotation line item, mirroring `QuoteItem` in src/types.ts.
`description : string | null` becomes an `Option`. -/
structure QuoteItem where
  id : ℤ
  name : List Char
  spec : List Char
  description : Option (List Char)
  quantity : ℚ
  price : ℚ
deriving DecidableEq

/-- A default item, used only as the fallback of `List.getD`. -/
def defaultItem : QuoteItem :=
  { id := 0, name := [], spec := [], description := none, quantity := 0, price := 0 }

/-! ### Layout constants (src/firebaseConfig.ts lines 1282-1289) -/

def A4_CONTENT_HEIGHT : ℕ := 1050
def HEADER_HEIGHT : ℕ := 380
def FOOTER_HEIGHT : ℕ := 320
def PAGE_2_HEADER_HEIGHT : ℕ := 60
def ROW_BASE_HEIGHT : ℕ := 45
def ROW_LINE_HEIGHT : ℕ := 24
def BOTTOM_SPACER : ℕ := 50

/-- `limit = A4_CONTENT_HEIGHT - BOTTOM_SPACER` (line 1318). -/
def pageLimit : ℕ := A4_CONTENT_HEIGHT - BOTTOM_SPACER

/-! ### Text metrics (countLines / getItemHeight, lines 1291-1309) -/

/-- `Math.ceil(a / b)` on non-negative integers, for `b ≥ 1`. -/
def jsCeilDiv (a b : ℕ) : ℕ := (a + b - 1) / b

/-- JS `text.split('\n')`: split a character list on newline characters.
Always returns at least one (possibly empty) segment. -/
def splitNl : List Char → List (List Char)
  | [] => [[]]
  | c :: rest =>
    let r := splitNl rest
    if c = '\n' then [] :: r
    else (c :: r.headD []) :: r.tail

/-- `countLines` (lines 1292-1300): `null` or empty text gives 1; otherwise the
sum over the newline-separated segments of `Math.max(1, Math.ceil(len / cpl))`. -/
def countLines (text : Option (List Char)) (cpl : ℕ) : ℕ :=
  match text with
  | none => 1
  | some [] => 1
  | some cs => ((splitNl cs).map (fun line => max 1 (jsCeilDiv line.length cpl))).sum

/-- JS truthiness of a nullable string: `null` and the empty string are falsy. -/
def isTruthyStr : Option (List Char) → Bool
  | none => false
  | some cs => !cs.isEmpty

/-- `getItemHeight` (lines 1291-1309).  Note the description block is added only
when `item.description` is truthy in the JS sense (non-null AND non-empty). -/
def getItemHeight (item : QuoteItem) : ℕ :=
  let nameLines := countLines (some item.name) 22
  let descLines := countLines item.description 35
  let specLines := countLines (some item.spec) 15
  let nameBlockLines := nameLines + (if isTruthyStr item.description then descLines else 0)
  let maxLines := max (max nameBlockLines specLines) 1
  ROW_BASE_HEIGHT + (maxLines - 1) * ROW_LINE_HEIGHT

/-! ### Pagination planner (lines 1311-1357) -/

/-- Mutable state of the pagination loop: accumulated pages, the page being
filled, and its accumulated height. -/
structure PlanState where
  resultPages : List (List QuoteItem)
  currentPageItems : List QuoteItem
  currentHeight : ℕ
deriving DecidableEq

/-- Initial state: no pages, empty current page, `currentHeight = HEADER_HEIGHT`. -/
def initState : PlanState :=
  { resultPages := [], currentPageItems := [], currentHeight := HEADER_HEIGHT }

/-- Loop body for an item that is not the last of the whole list (lines 1338-1348). -/
def stepNonLast (s : PlanState) (item : QuoteItem) : PlanState :=
  let itemHeight := getItemHeight item
  if s.currentHeight + itemHeight > pageLimit then
    { resultPages := s.resultPages ++ [s.currentPageItems]
      currentPageItems := [item]
      currentHeight := PAGE_2_HEADER_HEIGHT + itemHeight }
  else
    { resultPages := s.resultPages
      currentPageItems := s.currentPageItems ++ [item]
      currentHeight := s.currentHeight + itemHeight }

/-- Loop body for the last item of the whole list (lines 1322-1337). -/
def stepLast (s : PlanState) (item : QuoteItem) : PlanState :=
  let itemHeight := getItemHeight item
  if s.currentHeight + itemHeight + FOOTER_HEIGHT > A4_CONTENT_HEIGHT then
    if s.currentHeight + itemHeight < pageLimit then
      { resultPages := s.resultPages ++ [s.currentPageItems ++ [item]]
        currentPageItems := []
        currentHeight := PAGE_2_HEADER_HEIGHT }
    else
      { resultPages := s.resultPages ++ [s.currentPageItems]
        currentPageItems := [item]
        currentHeight := PAGE_2_HEADER_HEIGHT + itemHeight }
  else
    { resultPages := s.resultPages
      currentPageItems := s.currentPageItems ++ [item]
      currentHeight := s.currentHeight + itemHeight }

/-- The `data.items.forEach` loop with its `isLastItemGlobal` special case. -/
def planLoop (s : PlanState) : List QuoteItem → PlanState
  | [] => s
  | [x] => stepLast s x
  | x :: y :: rest => planLoop (stepNonLast s x) (y :: rest)

/-- The final flush (lines 1351-1355): push the pending page if non-empty,
else emit a single empty page only when no page was produced at all. -/
def flushPages (s : PlanState) : List (List QuoteItem) :=
  if s.currentPageItems ≠ [] then s.resultPages ++ [s.currentPageItems]
  else if s.resultPages = [] then [[]]
  else s.resultPages

/-- `pages` (the useMemo body, lines 1311-1357). -/
def planPages (items : List QuoteItem) : List (List QuoteItem) :=
  flushPages (planLoop initState items)

/-- `getGlobalIndex` (lines 1403-1409): sum of the lengths of the pages before
`pageIndex`, plus `localIndex`, plus 1. -/
def getGlobalIndex (pages : List (List QuoteItem)) (pageIndex localIndex : ℕ) : ℕ :=
  ((pages.take pageIndex).map List.length).sum + localIndex + 1

/-! ### Financial calculator (lines 1362-1382) -/

/-- JS `Math.round`: nearest integer, ties toward positive infinity. -/
def jsRound (x : ℚ) : ℤ := ⌊x + 1/2⌋

/-- `taxFactor = 1 + taxRate / 100` (line 1362). -/
def taxFactor (taxRate : ℚ) : ℚ := 1 + taxRate / 100

/-- `getPreTaxUnitPrice` (lines 1367-1372). -/
def getPreTaxUnitPrice (isTaxInclusive : Bool) (taxRate : ℚ) (price : ℚ) : ℚ :=
  if isTaxInclusive then (jsRound (price / taxFactor taxRate) : ℚ) else price

/-- The per-item effective unit price used by the subtotal loop (line 1376). -/
def effectiveUnitPrice (isTaxInclusive : Bool) (taxRate : ℚ) (item : QuoteItem) : ℚ :=
  getPreTaxUnitPrice isTaxInclusive taxRate item.price

/-- `unitPrice * item.quantity`, the row amount accumulated at line 1377. -/
def rowAmount (isTaxInclusive : Bool) (taxRate : ℚ) (item : QuoteItem) : ℚ :=
  effectiveUnitPrice isTaxInclusive taxRate item * item.quantity

/-- `calculatedSubtotal` (lines 1374-1378), the forEach accumulation. -/
def calculatedSubtotal (isTaxInclusive : Bool) (taxRate : ℚ) (items : List QuoteItem) : ℚ :=
  items.foldl (fun acc item => acc + rowAmount isTaxInclusive taxRate item) 0

/-- `taxableAmount = Math.max(0, calculatedSubtotal - discount)` (line 1380). -/
def taxableAmount (isTaxInclusive : Bool) (taxRate discount : ℚ)
    (items : List QuoteItem) : ℚ :=
  max 0 (calculatedSubtotal isTaxInclusive taxRate items - discount)

/-- `taxAmount = Math.round(taxableAmount * (taxRate / 100))` (line 1381). -/
def taxAmount (isTaxInclusive : Bool) (taxRate discount : ℚ)
    (items : List QuoteItem) : ℚ :=
  (jsRound (taxableAmount isTaxInclusive taxRate discount items * (taxRate / 100)) : ℚ)

/-- `total = taxableAmount + taxAmount` (line 1382). -/
def total (isTaxInclusive : Bool) (taxRate discount : ℚ) (items : List QuoteItem) : ℚ :=
  taxableAmount isTaxInclusive taxRate discount items
    + taxAmount isTaxInclusive taxRate discount items

/-! ### Definitions written from the claims, for comparison with the code -/

/-- The rounding convention named by the tax-inclusive claim: round to the
nearest integer with ties rounded half away from zero. -/
def roundHalfAwayFromZero (x : ℚ) : ℤ :=
  if 0 ≤ x then ⌊x + 1/2⌋ else -⌊-x + 1/2⌋

/-- The row height as the description claim states it: a present (non-null)
description always contributes its line estimate, even when it is the empty
string. -/
def claimRowHeight (item : QuoteItem) : ℕ :=
  let nameLines := countLines (some item.name) 22
  let descLines := countLines item.description 35
  let specLines := countLines (some item.spec) 15
  let nameBlockLines := nameLines + (if item.description = none then 0 else descLines)
  let maxLines := max (max nameBlockLines specLines) 1
  ROW_BASE_HEIGHT + (maxLines - 1) * ROW_LINE_HEIGHT

/-! ### Concrete items used in witnesses and counterexamples -/

/-- An item whose name consists of `k` newline characters, hence `k + 1` empty
segments: its height is `45 + k * 24`. -/
def nlItem (k : ℕ) : QuoteItem :=
  { id := 0, name := List.replicate k '\n', spec := [], description := none,
    quantity := 1, price := 0 }

/-- Height 1005, above `pageLimit = 1000`. -/
def oversizedItem : QuoteItem := nlItem 40

/-- Height 381: on a first page, `380 + 381 + 320 > 1050` yet `380 + 381 < 1000`,
the forced-overflow configuration. -/
def forcedOverflowItem : QuoteItem := nlItem 14

/-- Height 117; eight copies split 5/3 over two pages. -/
def mediumItem : QuoteItem := nlItem 3

/-- An item with a present-but-empty description. -/
def emptyDescItem : QuoteItem :=
  { id := 0, name := ['a'], spec := ['a'], description := some [],
    quantity := 1, price := 0 }

/-! ### Text-metrics lemmas -/

lemma splitNl_ne_nil (cs : List Char) : splitNl cs ≠ [] := by
  cases cs with
  | nil => simp [splitNl]
  | cons c rest =>
    simp only [splitNl]
    split <;> simp

lemma splitNl_no_newline (cs : List Char) (h : '\n' ∉ cs) : splitNl cs = [cs] := by
  induction cs with
  | nil => rfl
  | cons c rest ih =>
    have hc : ¬ c = '\n' := fun hceq => h (hceq ▸ List.mem_cons_self c rest)
    have hr : splitNl rest = [rest] := ih (fun hm => h (List.mem_cons_of_mem c hm))
    simp [splitNl, hc, hr]

lemma jsCeilDiv_zero (cpl : ℕ) : jsCeilDiv 0 cpl = 0 := by
  unfold jsCeilDiv
  rcases Nat.eq_zero_or_pos cpl with h | h
  · subst h; rfl
  · exact Nat.div_eq_of_lt (by omega)

lemma one_le_jsCeilDiv (L cpl : ℕ) (hL : 1 ≤ L) (hcpl : 1 ≤ cpl) :
    1 ≤ jsCeilDiv L cpl := by
  unfold jsCeilDiv
  rw [Nat.le_div_iff_mul_le hcpl]
  omega

lemma max_one_jsCeilDiv (L cpl : ℕ) (hcpl : 1 ≤ cpl) :
    max 1 (jsCeilDiv L cpl) = jsCeilDiv (max 1 L) cpl := by
  rcases Nat.eq_zero_or_pos L with hL | hL
  · subst hL
    rw [jsCeilDiv_zero]
    have h1 : max 1 0 = 1 := rfl
    rw [h1]
    unfold jsCeilDiv
    rw [show 1 + cpl - 1 = cpl by omega, Nat.div_self hcpl]
  · rw [Nat.max_eq_right hL, Nat.max_eq_right (one_le_jsCeilDiv L cpl hL hcpl)]

lemma one_le_countLines (t : Option (List Char)) (cpl : ℕ) : 1 ≤ countLines t cpl := by
  match t with
  | none => exact le_refl 1
  | some [] => exact le_refl 1
  | some (c :: cs) =>
    show 1 ≤ ((splitNl (c :: cs)).map (fun line => max 1 (jsCeilDiv line.length cpl))).sum
    obtain ⟨s, ss, hs⟩ := List.exists_cons_of_ne_nil (splitNl_ne_nil (c :: cs))
    rw [hs, List.map_cons, List.sum_cons]
    have h1 : 1 ≤ max 1 (jsCeilDiv s.length cpl) := le_max_left _ _
    omega

lemma countLines_no_newline (cs : List Char) (cpl : ℕ) (h : '\n' ∉ cs) :
    countLines (some cs) cpl = max 1 (jsCeilDiv cs.length cpl) := by
  cases cs with
  | nil =>
    show 1 = max 1 (jsCeilDiv 0 cpl)
    rw [jsCeilDiv_zero]
    omega
  | cons c rest =>
    show ((splitNl (c :: rest)).map (fun line => max 1 (jsCeilDiv line.length cpl))).sum = _
    rw [splitNl_no_newline _ h, List.map_cons, List.map_nil, List.sum_cons, List.sum_nil,
      add_zero]

/-! ### Financial lemmas -/

lemma foldl_add_map (f : QuoteItem → ℚ) (l : List QuoteItem) :
    ∀ a : ℚ, l.foldl (fun acc it => acc + f it) a = a + (l.map f).sum := by
  induction l with
  | nil => intro a; simp
  | cons x xs ih =>
    intro a
    rw [List.foldl_cons, ih (a + f x), List.map_cons, List.sum_cons]
    ring

/-! ### Planner: order-preservation machinery -/

lemma flatten_stepNonLast (s : PlanState) (item : QuoteItem) :
    (stepNonLast s item).resultPages.flatten ++ (stepNonLast s item).currentPageItems
      = s.resultPages.flatten ++ s.currentPageItems ++ [item] := by
  simp only [stepNonLast]
  split <;> simp

lemma flatten_stepLast (s : PlanState) (item : QuoteItem) :
    (stepLast s item).resultPages.flatten ++ (stepLast s item).currentPageItems
      = s.resultPages.flatten ++ s.currentPageItems ++ [item] := by
  simp only [stepLast]
  split
  · split <;> simp
  · simp

lemma flatten_planLoop (l : List QuoteItem) :
    ∀ s : PlanState,
      (planLoop s l).resultPages.flatten ++ (planLoop s l).currentPageItems
        = s.resultPages.flatten ++ s.currentPageItems ++ l := by
  induction l with
  | nil => intro s; simp [planLoop]
  | cons x xs ih =>
    intro s
    cases xs with
    | nil =>
      show (stepLast s x).resultPages.flatten ++ (stepLast s x).currentPageItems = _
      rw [flatten_stepLast]
    | cons y rest =>
      show (planLoop (stepNonLast s x) (y :: rest)).resultPages.flatten
          ++ (planLoop (stepNonLast s x) (y :: rest)).currentPageItems = _
      rw [ih (stepNonLast s x), flatten_stepNonLast]
      simp

lemma flatten_flushPages (s : PlanState) :
    (flushPages s).flatten = s.resultPages.flatten ++ s.currentPageItems := by
  unfold flushPages
  by_cases h : s.currentPageItems = []
  · by_cases h2 : s.resultPages = [] <;> simp [h, h2]
  · simp [h]

/-- Shared order-preservation fact: the planner's pages flatten back to the
input item list. -/
lemma planPages_flatten (items : List QuoteItem) :
    (planPages items).flatten = items := by
  unfold planPages
  rw [flatten_flushPages, flatten_planLoop]
  simp [initState]

/-! ### Planner: flatten indexing (row numbering) -/

lemma getD_append_left_cancel (x l : List QuoteItem) (a : ℕ) (d : QuoteItem) :
    (x ++ l).getD (x.length + a) d = l.getD a d := by
  rw [List.getD_eq_getElem?_getD, List.getElem?_append_right (by omega),
    Nat.add_sub_cancel_left, ← List.getD_eq_getElem?_getD]

lemma flatten_getD_of_lt (d : QuoteItem) :
    ∀ (L : List (List QuoteItem)) (p i : ℕ), p < L.length →
      i < (L.getD p []).length →
      L.flatten.getD (((L.take p).map List.length).sum + i) d
        = (L.getD p []).getD i d := by
  intro L
  induction L with
  | nil => intro p i hp hi; simp at hp
  | cons x rest ih =>
    intro p i hp hi
    cases p with
    | zero =>
      rw [List.getD_cons_zero] at hi ⊢
      rw [List.take_zero, List.map_nil, List.sum_nil, Nat.zero_add]
      rw [List.flatten_cons]
      exact List.getD_append x rest.flatten d i hi
    | succ q =>
      have hq : q < rest.length := by
        simp only [List.length_cons] at hp; omega
      rw [List.getD_cons_succ] at hi ⊢
      rw [List.take_succ_cons, List.map_cons, List.sum_cons, List.flatten_cons,
        Nat.add_assoc, getD_append_left_cancel]
      exact ih q i hq hi

/-! ### Planner: oversized-item isolation machinery -/

/-- Total estimated height of a list of items. -/
def heightSum (l : List QuoteItem) : ℕ := (l.map getItemHeight).sum

lemma heightSum_append_single (l : List QuoteItem) (x : QuoteItem) :
    heightSum (l ++ [x]) = heightSum l + getItemHeight x := by
  simp [heightSum]

/-- Every item taller than the page limit sits alone on its page. -/
def soloOk (pages : List (List QuoteItem)) : Prop :=
  ∀ page ∈ pages, ∀ it ∈ page, pageLimit < getItemHeight it → page = [it]

/-- Loop invariant for oversized-item isolation: all closed pages isolate
oversized items, the pending page does too, and the accumulated height bounds
the pending page's total item height. -/
def stateOk (s : PlanState) : Prop :=
  soloOk s.resultPages ∧
  (∀ it ∈ s.currentPageItems, pageLimit < getItemHeight it → s.currentPageItems = [it]) ∧
  heightSum s.currentPageItems ≤ s.currentHeight

lemma stateOk_init : stateOk initState := by
  refine ⟨fun page hp => absurd hp (List.not_mem_nil page), fun it hit => absurd hit (List.not_mem_nil it), ?_⟩
  simp [heightSum, initState]

lemma soloOk_append_single {pages : List (List QuoteItem)} {c : List QuoteItem}
    (h1 : soloOk pages) (h2 : ∀ it ∈ c, pageLimit < getItemHeight it → c = [it]) :
    soloOk (pages ++ [c]) := by
  intro page hpage
  rcases List.mem_append.mp hpage with h | h
  · exact h1 page h
  · rw [List.mem_singleton.mp h]
    exact h2

lemma stateOk_stepNonLast (s : PlanState) (item : QuoteItem) (h : stateOk s) :
    stateOk (stepNonLast s item) := by
  obtain ⟨h1, h2, h3⟩ := h
  simp only [stepNonLast]
  split
  · refine ⟨soloOk_append_single h1 h2, ?_, ?_⟩
    · intro it hit _
      rw [List.mem_singleton.mp hit]
    · simp [heightSum]
  · rename_i hfit
    refine ⟨h1, ?_, ?_⟩
    · intro it hit hov
      rcases List.mem_append.mp hit with hin | hin
      · have hc := h2 it hin hov
        have : heightSum s.currentPageItems ≤ s.currentHeight := h3
        rw [hc] at this
        simp only [heightSum, List.map_cons, List.map_nil, List.sum_cons,
          List.sum_nil, add_zero] at this
        omega
      · rw [List.mem_singleton.mp hin] at hov
        omega
    · dsimp only
      rw [heightSum_append_single]
      omega

lemma stateOk_stepLast (s : PlanState) (item : QuoteItem) (h : stateOk s) :
    stateOk (stepLast s item) := by
  obtain ⟨h1, h2, h3⟩ := h
  have cFOOTER : FOOTER_HEIGHT = 320 := rfl
  have cA4 : A4_CONTENT_HEIGHT = 1050 := rfl
  have cLIMIT : pageLimit = 1000 := rfl
  simp only [stepLast]
  split
  · split
    · rename_i hbig hfit
      refine ⟨?_, fun it hit => absurd hit (List.not_mem_nil it), ?_⟩
      · refine soloOk_append_single h1 ?_
        intro it hit hov
        rcases List.mem_append.mp hit with hin | hin
        · have hc := h2 it hin hov
          rw [hc] at h3
          simp only [heightSum, List.map_cons, List.map_nil, List.sum_cons,
            List.sum_nil, add_zero] at h3
          omega
        · rw [List.mem_singleton.mp hin] at hov
          omega
      · simp [heightSum]
    · refine ⟨soloOk_append_single h1 h2, ?_, ?_⟩
      · intro it hit _
        rw [List.mem_singleton.mp hit]
      · simp [heightSum]
  · rename_i hsmall
    refine ⟨h1, ?_, ?_⟩
    · intro it hit hov
      rcases List.mem_append.mp hit with hin | hin
      · have hc := h2 it hin hov
        rw [hc] at h3
        simp only [heightSum, List.map_cons, List.map_nil, List.sum_cons,
          List.sum_nil, add_zero] at h3
        omega
      · rw [List.mem_singleton.mp hin] at hov
        omega
    · dsimp only
      rw [heightSum_append_single]
      omega

lemma stateOk_planLoop (l : List QuoteItem) :
    ∀ s : PlanState, stateOk s → stateOk (planLoop s l) := by
  induction l with
  | nil => intro s h; exact h
  | cons x xs ih =>
    intro s h
    cases xs with
    | nil => exact stateOk_stepLast s x h
    | cons y rest =>
      exact ih (stepNonLast s x) (stateOk_stepNonLast s x h)

lemma soloOk_flushPages (s : PlanState) (h : stateOk s) : soloOk (flushPages s) := by
  obtain ⟨h1, h2, _⟩ := h
  unfold flushPages
  by_cases hc : s.currentPageItems = []
  · by_cases hr : s.resultPages = []
    · simp only [hc, hr, ne_eq, not_true_eq_false, if_false, if_true]
      intro page hpage it hit
      rw [List.mem_singleton.mp hpage] at hit
      exact absurd hit (List.not_mem_nil it)
    · simp only [hc, hr, ne_eq, not_true_eq_false, if_false]
      exact h1
  · simp only [ne_eq, hc, not_false_eq_true, if_true]
    exact soloOk_append_single h1 h2

lemma flushPages_ne_nil (s : PlanState) : flushPages s ≠ [] := by
  unfold flushPages
  by_cases hc : s.currentPageItems = []
  · by_cases hr : s.resultPages = [] <;> simp [hc, hr]
  · simp [hc]

/-! ### Planner: page-emptiness machinery -/

/-- All pages after the first are non-empty. -/
def tailPagesNonempty (pages : List (List QuoteItem)) : Prop :=
  ∀ p ∈ pages.tail, p ≠ []

lemma mem_tail_append_single {r : List (List QuoteItem)} {c p : List QuoteItem}
    (hp : p ∈ (r ++ [c]).tail) : p ∈ r.tail ∨ p = c := by
  cases r with
  | nil => simp at hp
  | cons x xs =>
    simp only [List.cons_append, List.tail_cons] at hp
    rcases List.mem_append.mp hp with h | h
    · exact Or.inl h
    · exact Or.inr (List.mem_singleton.mp h)

/-- Loop invariant: closed non-first pages are non-empty, and while some page
has been closed the pending page is non-empty. -/
def tOk (s : PlanState) : Prop :=
  tailPagesNonempty s.resultPages ∧ (s.resultPages ≠ [] → s.currentPageItems ≠ [])

lemma tOk_init : tOk initState :=
  ⟨fun p hp => absurd hp (List.not_mem_nil p), fun h => absurd rfl h⟩

lemma tOk_stepNonLast (s : PlanState) (item : QuoteItem) (h : tOk s) :
    tOk (stepNonLast s item) := by
  obtain ⟨h1, h2⟩ := h
  simp only [stepNonLast]
  split
  · refine ⟨?_, fun _ => by simp⟩
    intro p hp
    rcases mem_tail_append_single hp with hin | hin
    · exact h1 p hin
    · subst hin
      by_cases hr : s.resultPages = []
      · rw [hr] at hp
        simp at hp
      · exact h2 hr
  · refine ⟨h1, fun _ => by simp⟩

lemma tailPagesNonempty_stepLast (s : PlanState) (item : QuoteItem) (h : tOk s) :
    tailPagesNonempty (stepLast s item).resultPages := by
  obtain ⟨h1, h2⟩ := h
  simp only [stepLast]
  split
  · split
    · intro p hp
      rcases mem_tail_append_single hp with hin | hin
      · exact h1 p hin
      · subst hin
        simp
    · intro p hp
      rcases mem_tail_append_single hp with hin | hin
      · exact h1 p hin
      · subst hin
        by_cases hr : s.resultPages = []
        · rw [hr] at hp
          simp at hp
        · exact h2 hr
  · exact h1

lemma tailPagesNonempty_planLoop (l : List QuoteItem) :
    ∀ s : PlanState, tOk s → tailPagesNonempty (planLoop s l).resultPages := by
  induction l with
  | nil => intro s h; exact h.1
  | cons x xs ih =>
    intro s h
    cases xs with
    | nil => exact tailPagesNonempty_stepLast s x h
    | cons y rest => exact ih (stepNonLast s x) (tOk_stepNonLast s x h)

lemma tailPagesNonempty_flushPages (s : PlanState)
    (h : tailPagesNonempty s.resultPages) : tailPagesNonempty (flushPages s) := by
  unfold flushPages
  by_cases hc : s.currentPageItems = []
  · by_cases hr : s.resultPages = []
    · simp only [hc, hr, ne_eq, not_true_eq_false, if_false, if_true]
      intro p hp
      simp at hp
    · simp only [hc, hr, ne_eq, not_true_eq_false, if_false]
      exact h
  · simp only [ne_eq, hc, not_false_eq_true, if_true]
    intro p hp
    rcases mem_tail_append_single hp with hin | hin
    · exact h p hin
    · subst hin
      exact hc

lemma getD_zero_append_single (r : List (List QuoteItem)) (c : List QuoteItem) :
    (r ++ [c]).getD 0 [] = if r = [] then c else r.getD 0 [] := by
  cases r with
  | nil => rfl
  | cons x xs => simp

/-- Loop invariant: the first page — already closed, or still pending when
none is closed — is non-empty. -/
def headOk (s : PlanState) : Prop :=
  (s.resultPages = [] → s.currentPageItems ≠ []) ∧
  (s.resultPages ≠ [] → s.resultPages.getD 0 [] ≠ [])

lemma headOk_push {s : PlanState} (h : headOk s) (c : List QuoteItem)
    (hc : s.resultPages = [] → c ≠ []) :
    (s.resultPages ++ [c]).getD 0 [] ≠ [] := by
  rw [getD_zero_append_single]
  by_cases hr : s.resultPages = []
  · simp only [hr, if_true]
    exact hc hr
  · simp only [hr, if_false]
    exact h.2 hr

lemma headOk_stepNonLast (s : PlanState) (item : QuoteItem) (h : headOk s) :
    headOk (stepNonLast s item) := by
  simp only [stepNonLast]
  split
  · refine ⟨fun hr => by simp at hr, fun _ => ?_⟩
    exact headOk_push h s.currentPageItems h.1
  · exact ⟨fun _ => by simp, fun hr => h.2 hr⟩

lemma headOk_stepLast (s : PlanState) (item : QuoteItem) (h : headOk s) :
    headOk (stepLast s item) := by
  simp only [stepLast]
  split
  · split
    · refine ⟨fun hr => by simp at hr, fun _ => ?_⟩
      exact headOk_push h (s.currentPageItems ++ [item]) (fun _ => by simp)
    · refine ⟨fun hr => by simp at hr, fun _ => ?_⟩
      exact headOk_push h s.currentPageItems h.1
  · exact ⟨fun _ => by simp, fun hr => h.2 hr⟩

lemma headOk_planLoop (l : List QuoteItem) :
    ∀ s : PlanState, headOk s → headOk (planLoop s l) := by
  induction l with
  | nil => intro s h; exact h
  | cons x xs ih =>
    intro s h
    cases xs with
    | nil => exact headOk_stepLast s x h
    | cons y rest => exact ih (stepNonLast s x) (headOk_stepNonLast s x h)

lemma headOk_flushPages (s : PlanState) (h : headOk s) :
    (flushPages s).getD 0 [] ≠ [] := by
  unfold flushPages
  by_cases hc : s.currentPageItems = []
  · have hr : s.resultPages ≠ [] := fun hr => (h.1 hr) hc
    simp only [hc, hr, ne_eq, not_true_eq_false, if_false]
    exact h.2 hr
  · simp only [ne_eq, hc, not_false_eq_true, if_true]
    exact headOk_push h s.currentPageItems h.1

lemma sum_take_lt_flatten_length :
    ∀ (L : List (List QuoteItem)) (p i : ℕ), p < L.length →
      i < (L.getD p []).length →
      ((L.take p).map List.length).sum + i < L.flatten.length := by
  intro L
  induction L with
  | nil => intro p i hp hi; simp at hp
  | cons x rest ih =>
    intro p i hp hi
    rw [List.flatten_cons, List.length_append]
    cases p with
    | zero =>
      rw [List.getD_cons_zero] at hi
      simp only [List.take_zero, List.map_nil, List.sum_nil, Nat.zero_add]
      omega
    | succ q =>
      have hq : q < rest.length := by
        simp only [List.length_cons] at hp; omega
      rw [List.getD_cons_succ] at hi
      rw [List.take_succ_cons, List.map_cons, List.sum_cons]
      have := ih q i hq hi
      omega

/-- An item with a truthy (non-null, non-empty) description, used as a witness
input. -/
def presentDescItem : QuoteItem :=
  { id := 0, name := ['a'], spec := ['a'], description := some ['b'],
    quantity := 1, price := 0 }

lemma planPages_head_nonempty_of_small (x : QuoteItem) (rest : List QuoteItem)
    (hx : getItemHeight x < 620) : (planPages (x :: rest)).getD 0 [] ≠ [] := by
  have e380 : initState.currentHeight = 380 := rfl
  have eLIM : pageLimit = 1000 := rfl
  cases rest with
  | nil =>
    show (flushPages (stepLast initState x)).getD 0 [] ≠ []
    have hc2 : initState.currentHeight + getItemHeight x < pageLimit := by omega
    by_cases hb : initState.currentHeight + getItemHeight x + FOOTER_HEIGHT > A4_CONTENT_HEIGHT
    · simp only [stepLast, if_pos hb, if_pos hc2, flushPages]
      simp [initState]
    · simp only [stepLast, if_neg hb, flushPages]
      simp [initState]
  | cons y rest2 =>
    show (flushPages (planLoop (stepNonLast initState x) (y :: rest2))).getD 0 [] ≠ []
    have hfit : ¬ initState.currentHeight + getItemHeight x > pageLimit := by omega
    apply headOk_flushPages
    apply headOk_planLoop
    simp only [stepNonLast, if_neg hfit]
    exact ⟨fun _ => by simp [initState], fun hr => absurd rfl hr⟩

/-! ## Claim theorems -/

/-- Claim C1 (divergence witness): a single item of height 381 puts the planner
in the forced-overflow configuration — 380 + 381 + 320 exceeds the content
height 1050 while 380 + 381 stays under the limit 1000 — yet the output is the
single page [item].  The branch resets the pending page for a footer-only page,
but the final flush drops an empty pending page whenever a page already exists,
so the item-free last page the claim demands is never emitted. -/
theorem forcedOverflow_footer_page_missing :
    A4_CONTENT_HEIGHT < HEADER_HEIGHT + getItemHeight forcedOverflowItem + FOOTER_HEIGHT ∧
    HEADER_HEIGHT + getItemHeight forcedOverflowItem < pageLimit ∧
    planPages [forcedOverflowItem] = [[forcedOverflowItem]] := by
  decide

/-- Claim C2: concatenating the planner's pages' item sequences in page order
yields exactly the input canonical item list — every item appears exactly once,
in the original order, with no loss, duplication, or reordering. -/
theorem pages_flatten_eq_items (items : List QuoteItem) :
    (planPages items).flatten = items :=
  planPages_flatten items

/-- Claim C3: each row amount is the effective unit price times the quantity
with no further rounding, the subtotal is the sum of the row amounts in
canonical order, the taxable amount is max(0, subtotal − discount), the tax is
round(taxableAmount × taxRate/100) applied once at the aggregate level, and the
total is taxableAmount + taxAmount. -/
theorem financial_formulas (inc : Bool) (taxRate discount : ℚ)
    (items : List QuoteItem) :
    (∀ it : QuoteItem,
      rowAmount inc taxRate it = effectiveUnitPrice inc taxRate it * it.quantity) ∧
    calculatedSubtotal inc taxRate items = (items.map (rowAmount inc taxRate)).sum ∧
    taxableAmount inc taxRate discount items
      = max 0 (calculatedSubtotal inc taxRate items - discount) ∧
    taxAmount inc taxRate discount items
      = (jsRound (taxableAmount inc taxRate discount items * (taxRate / 100)) : ℚ) ∧
    total inc taxRate discount items
      = taxableAmount inc taxRate discount items
        + taxAmount inc taxRate discount items := by
  refine ⟨fun it => rfl, ?_, rfl, rfl, rfl⟩
  have h := foldl_add_map (rowAmount inc taxRate) items 0
  unfold calculatedSubtotal
  rw [h, zero_add]

/-- Claim C4 counterexample: with tax-inclusive unit price −5 and tax rate 100
the quotient is −2.5; the code rounds it to −2, while the claim's
round-half-away-from-zero yields −3. -/
theorem preTaxUnitPrice_half_away_cex :
    getPreTaxUnitPrice true 100 (-5) = -2 ∧
    roundHalfAwayFromZero ((-5 : ℚ) / taxFactor 100) = -3 := by
  constructor
  · show ((jsRound ((-5 : ℚ) / taxFactor 100) : ℤ) : ℚ) = -2
    norm_num [jsRound, taxFactor]
  · unfold roundHalfAwayFromZero taxFactor
    rw [if_neg (by norm_num)]
    norm_num

/-- Claim C4 amended: when isTaxInclusive is true the effective unit price is
unitPrice / taxFactor rounded to the nearest integer with ties rounded toward
positive infinity (half-up, the JS Math.round convention, so a quotient of
−k−0.5 rounds to −k); when isTaxInclusive is false it is the unit price
unchanged. -/
theorem preTaxUnitPrice_rounds_half_up (price taxRate : ℚ) :
    getPreTaxUnitPrice false taxRate price = price ∧
    ∀ n : ℤ, (getPreTaxUnitPrice true taxRate price = (n : ℚ) ↔
      (n : ℚ) - 1/2 ≤ price / taxFactor taxRate ∧
        price / taxFactor taxRate < (n : ℚ) + 1/2) := by
  refine ⟨rfl, fun n => ?_⟩
  show ((jsRound (price / taxFactor taxRate) : ℤ) : ℚ) = (n : ℚ) ↔ _
  rw [Int.cast_inj]
  unfold jsRound
  rw [Int.floor_eq_iff]
  constructor
  · rintro ⟨h1, h2⟩
    exact ⟨by linarith, by linarith⟩
  · rintro ⟨h1, h2⟩
    exact ⟨by linarith, by linarith⟩

/-- Claim C5 counterexample: an item with a present-but-empty description gets
row height 45 from the code — JS truthiness treats the empty string like an
absent description — while the claim's formula, in which every present
(non-null) description contributes estimateLines(description, 35), yields 69. -/
theorem emptyDescription_height_cex :
    getItemHeight emptyDescItem = 45 ∧ claimRowHeight emptyDescItem = 69 := by
  decide

/-- Claim C5 amended: the description block is added exactly when the
description is truthy — non-null AND non-empty; a null or empty-string
description contributes nothing.  The row height otherwise follows the claim's
formula. -/
theorem itemHeight_description_truthy (item : QuoteItem) :
    (isTruthyStr item.description = true →
      getItemHeight item = ROW_BASE_HEIGHT +
        (max (max (countLines (some item.name) 22 + countLines item.description 35)
          (countLines (some item.spec) 15)) 1 - 1) * ROW_LINE_HEIGHT) ∧
    (isTruthyStr item.description = false →
      getItemHeight item = ROW_BASE_HEIGHT +
        (max (max (countLines (some item.name) 22)
          (countLines (some item.spec) 15)) 1 - 1) * ROW_LINE_HEIGHT) := by
  unfold getItemHeight
  constructor <;> intro h <;> simp [h]

/-- Witness for the amended C5 theorem at an item whose description is present
and non-empty. -/
theorem itemHeight_description_truthy_witness :
    getItemHeight presentDescItem = ROW_BASE_HEIGHT +
      (max (max (countLines (some presentDescItem.name) 22
          + countLines presentDescItem.description 35)
        (countLines (some presentDescItem.spec) 15)) 1 - 1) * ROW_LINE_HEIGHT :=
  (itemHeight_description_truthy presentDescItem).1 (by decide)

/-- Claim C6: for charsPerLine ≥ 1, countLines returns an integer ≥ 1; it
returns 1 for absent or empty text; for non-empty text it equals the sum over
the newline-separated segments of ceil(max(1, segment length) / charsPerLine);
and a 50-character single-segment name at 22 chars per line yields 3. -/
theorem countLines_contract (cpl : ℕ) (hcpl : 1 ≤ cpl) :
    (∀ t : Option (List Char), 1 ≤ countLines t cpl) ∧
    countLines none cpl = 1 ∧
    countLines (some []) cpl = 1 ∧
    (∀ cs : List Char, cs ≠ [] →
      countLines (some cs) cpl
        = ((splitNl cs).map (fun seg => jsCeilDiv (max 1 seg.length) cpl)).sum) ∧
    countLines (some (List.replicate 50 'a')) 22 = 3 := by
  refine ⟨fun t => one_le_countLines t cpl, rfl, rfl, ?_, by decide⟩
  intro cs hcs
  cases cs with
  | nil => exact absurd rfl hcs
  | cons c rest =>
    show ((splitNl (c :: rest)).map
        (fun line => max 1 (jsCeilDiv line.length cpl))).sum = _
    congr 1
    exact List.map_congr_left fun seg _ => max_one_jsCeilDiv seg.length cpl hcpl

/-- Witness for C6 at charsPerLine 22: the 50-character name estimates to 3
lines. -/
theorem countLines_contract_witness :
    countLines (some (List.replicate 50 'a')) 22 = 3 :=
  (countLines_contract 22 (by decide)).2.2.2.2

/-- Claim C7: getGlobalIndex returns the 1-based position in the canonical item
list of the item at (pageIndex, localIndex), so numbering is continuous across
page boundaries. -/
theorem globalIndex_canonical (items : List QuoteItem) (p i : ℕ)
    (hp : p < (planPages items).length)
    (hi : i < ((planPages items).getD p []).length) :
    1 ≤ getGlobalIndex (planPages items) p i ∧
    getGlobalIndex (planPages items) p i ≤ items.length ∧
    items.getD (getGlobalIndex (planPages items) p i - 1) defaultItem
      = ((planPages items).getD p []).getD i defaultItem := by
  unfold getGlobalIndex
  refine ⟨by omega, ?_, ?_⟩
  · have h := sum_take_lt_flatten_length (planPages items) p i hp hi
    have h2 : (planPages items).flatten.length = items.length := by
      rw [planPages_flatten]
    omega
  · have h := flatten_getD_of_lt defaultItem (planPages items) p i hp hi
    rw [planPages_flatten] at h
    rw [Nat.add_sub_cancel]
    exact h

/-- Witness for C7: eight equal items split 5/3 across two pages; the first
item of page 2 (page index 1, local index 0) is the 6th canonical item. -/
theorem globalIndex_canonical_witness :
    1 ≤ getGlobalIndex (planPages (List.replicate 8 mediumItem)) 1 0 ∧
    getGlobalIndex (planPages (List.replicate 8 mediumItem)) 1 0
      ≤ (List.replicate 8 mediumItem).length ∧
    (List.replicate 8 mediumItem).getD
        (getGlobalIndex (planPages (List.replicate 8 mediumItem)) 1 0 - 1) defaultItem
      = ((planPages (List.replicate 8 mediumItem)).getD 1 []).getD 0 defaultItem :=
  globalIndex_canonical (List.replicate 8 mediumItem) 1 0 (by decide) (by decide)

/-- Claim C8: the planner is total — it always produces at least one page — and
every item whose height exceeds the limit is the sole item of the page it lands
on. -/
theorem planner_total_oversized_isolated (items : List QuoteItem) :
    planPages items ≠ [] ∧
    ∀ page ∈ planPages items, ∀ it ∈ page,
      pageLimit < getItemHeight it → page = [it] :=
  ⟨flushPages_ne_nil _,
    soloOk_flushPages _ (stateOk_planLoop items initState stateOk_init)⟩

/-- Witness for C8: the 1005-high item exceeds the limit 1000 and is the sole
item of its page. -/
theorem planner_total_oversized_isolated_witness :
    planPages [oversizedItem] ≠ [] ∧ [oversizedItem] = [oversizedItem] :=
  ⟨(planner_total_oversized_isolated [oversizedItem]).1,
    (planner_total_oversized_isolated [oversizedItem]).2 [oversizedItem]
      (by decide) oversizedItem (by decide) (by decide)⟩

/-- Claim C9 counterexample: the texts "a\na" and "aaa" have the same length 3,
but the first estimates to 2 lines and the second to 1, so estimateLines is not
non-decreasing in bare text length. -/
theorem countLines_length_mono_cex :
    (['a', '\n', 'a'] : List Char).length ≤ (['a', 'a', 'a'] : List Char).length ∧
    ¬ countLines (some ['a', '\n', 'a']) 22 ≤ countLines (some ['a', 'a', 'a']) 22 := by
  decide

/-- Claim C9 amended: restricted to texts without explicit line breaks,
estimateLines is non-decreasing in text length for fixed charsPerLine. -/
theorem countLines_monotone_no_newline (s t : List Char) (cpl : ℕ)
    (hs : '\n' ∉ s) (ht : '\n' ∉ t) (hlen : s.length ≤ t.length) :
    countLines (some s) cpl ≤ countLines (some t) cpl := by
  rw [countLines_no_newline s cpl hs, countLines_no_newline t cpl ht]
  have h : jsCeilDiv s.length cpl ≤ jsCeilDiv t.length cpl := by
    unfold jsCeilDiv
    exact Nat.div_le_div_right (by omega)
  exact max_le_max (le_refl 1) h

/-- Witness for the amended C9 theorem on two newline-free texts. -/
theorem countLines_monotone_no_newline_witness :
    countLines (some ['a']) 22 ≤ countLines (some ['a', 'a']) 22 :=
  countLines_monotone_no_newline ['a'] ['a', 'a'] 22 (by decide) (by decide)
    (by decide)

/-- Claim C10: every page other than the first contains at least one item; and
when the first page is empty the input was empty or the very first item's
height already reaches the page-1 budget (height ≥ 620 = limit − header). -/
theorem nonfirst_pages_nonempty (items : List QuoteItem) :
    (∀ p ∈ (planPages items).tail, p ≠ []) ∧
    ((planPages items).getD 0 [] = [] →
      items = [] ∨ 620 ≤ getItemHeight (items.headD defaultItem)) := by
  constructor
  · exact tailPagesNonempty_flushPages _
      (tailPagesNonempty_planLoop items initState tOk_init)
  · intro hempty
    cases items with
    | nil => exact Or.inl rfl
    | cons x rest =>
      refine Or.inr ?_
      by_contra hlt
      push_neg at hlt
      exact planPages_head_nonempty_of_small x rest (by simpa using hlt) hempty

/-- Witness for C10: with an oversized first item followed by a medium item the
planner yields pages of sizes 0/1/1; the non-first page [oversizedItem] is
non-empty, and the empty first page implies the first item's height is at least
620. -/
theorem nonfirst_pages_nonempty_witness :
    ([oversizedItem] ≠ ([] : List QuoteItem)) ∧
    (([oversizedItem, mediumItem] : List QuoteItem) = [] ∨
      620 ≤ getItemHeight (([oversizedItem, mediumItem] : List QuoteItem).headD
        defaultItem)) :=
  ⟨(nonfirst_pages_nonempty [oversizedItem, mediumItem]).1 [oversizedItem] (by decide),
    (nonfirst_pages_nonempty [oversizedItem, mediumItem]).2 (by decide)⟩

end Quotation
